import Mathlib

/-!
Verification of the About-Writer tool (src/about_comment.py) against its
natural-language specification.  The program is embedded shallowly: Python
strings become lists of characters, the per-file pipeline `edit_file`
becomes a pure function from an abstract file state to a status plus the
list of completed writes, and the directory walker and `main` become pure
functions over an abstract filesystem enumeration.
-/

/-- Python strings are modelled as lists of characters. -/
abbrev Str := List Char

/-- Conversion from a Lean string literal to the model type. -/
def str (s : String) : Str := s.toList

/-- Python `str.lower()` (ASCII-relevant part, as used on extensions and paths). -/
def toLowerStr (s : Str) : Str := s.map Char.toLower

/-- Python `str.upper()`, used on the filename inside the statement. -/
def upperStr (s : Str) : Str := s.map Char.toUpper

/-- Characters stripped by Python `str.strip()` with no argument. -/
def isPySpace (c : Char) : Bool :=
  c = ' ' || c = '\t' || c = '\n' || c = '\r' || c = '\x0b' || c = '\x0c'

/-- Python `str.strip()`: remove leading and trailing whitespace. -/
def pyStrip (s : Str) : Str :=
  ((s.dropWhile isPySpace).reverse.dropWhile isPySpace).reverse

/-- Python `needle in hay` for strings: substring test. -/
def containsSub : Str → Str → Bool
  | [], needle => needle.isEmpty
  | c :: t, needle => needle.isPrefixOf (c :: t) || containsSub t needle

/-- Python `content.split('\n')`. -/
def splitNl : Str → List Str
  | [] => [[]]
  | c :: rest =>
    if c = '\n' then [] :: splitNl rest
    else
      match splitNl rest with
      | [] => [[c]]
      | l :: ls => (c :: l) :: ls

/-- Python `'\n'.join(lines)`. -/
def joinNl : List Str → Str
  | [] => []
  | [x] => x
  | x :: y :: t => x ++ '\n' :: joinNl (y :: t)

/-- The join of the first `k` lines of a string, as computed by
`'\n'.join(content.split('\n')[:k])`. -/
def firstLines (k : Nat) (s : Str) : Str := joinNl ((splitNl s).take k)

/-- `pathlib.PurePath.suffix` of a file name: the part from the last dot on,
empty when the dot is leading, trailing or absent. -/
def pySuffix (name : Str) : Str :=
  match name.reverse.findIdx? (fun c => c = '.') with
  | none => []
  | some j =>
    let i := name.length - 1 - j
    if 0 < i ∧ i < name.length - 1 then name.drop i else []

/-- The registry key computed by `edit_file`: `"*" + filepath.suffix.lower()`. -/
def extKey (name : Str) : Str := '*' :: toLowerStr (pySuffix name)

/-- `pathlib.PurePath.with_suffix`: replace the suffix of a name. -/
def withSuffix (name newSuf : Str) : Str :=
  name.take (name.length - (pySuffix name).length) ++ newSuf

/-- INCLUDED_EXTS: the extension registry mapping a glob key to the
(open, close) comment delimiter pair. -/
def INCLUDED_EXTS : List (Str × Str × Str) := [
  (str "*.c", str "/*", str "*/"),
  (str "*.cpp", str "/*", str "*/"),
  (str "*.cxx", str "/*", str "*/"),
  (str "*.cc", str "/*", str "*/"),
  (str "*.c++", str "/*", str "*/"),
  (str "*.h", str "/*", str "*/"),
  (str "*.hpp", str "/*", str "*/"),
  (str "*.hxx", str "/*", str "*/"),
  (str "*.java", str "/*", str "*/"),
  (str "*.js", str "/*", str "*/"),
  (str "*.jsx", str "/*", str "*/"),
  (str "*.ts", str "/*", str "*/"),
  (str "*.tsx", str "/*", str "*/"),
  (str "*.cs", str "/*", str "*/"),
  (str "*.css", str "/*", str "*/"),
  (str "*.scss", str "/*", str "*/"),
  (str "*.sass", str "/*", str "*/"),
  (str "*.less", str "/*", str "*/"),
  (str "*.php", str "/*", str "*/"),
  (str "*.go", str "/*", str "*/"),
  (str "*.rs", str "/*", str "*/"),
  (str "*.swift", str "/*", str "*/"),
  (str "*.kt", str "/*", str "*/"),
  (str "*.scala", str "/*", str "*/"),
  (str "*.dart", str "/*", str "*/"),
  (str "*.json", str "/*", str "*/"),
  (str "*.jsonc", str "/*", str "*/"),
  (str "*.py", str "\"\"\"", str "\"\"\""),
  (str "*.pyx", str "\"\"\"", str "\"\"\""),
  (str "*.pyi", str "\"\"\"", str "\"\"\""),
  (str "*.rb", str "=begin", str "=end"),
  (str "*.pl", str "=pod", str "=cut"),
  (str "*.pm", str "=pod", str "=cut"),
  (str "*.r", str "# ", str ""),
  (str "*.R", str "# ", str ""),
  (str "*.sh", str "# ", str ""),
  (str "*.bash", str "# ", str ""),
  (str "*.zsh", str "# ", str ""),
  (str "*.fish", str "# ", str ""),
  (str "*.ksh", str "# ", str ""),
  (str "*.csh", str "# ", str ""),
  (str "*.tcsh", str "# ", str ""),
  (str "*.perl", str "# ", str ""),
  (str "*.yaml", str "# ", str ""),
  (str "*.yml", str "# ", str ""),
  (str "*.toml", str "# ", str ""),
  (str "*.ini", str "# ", str ""),
  (str "*.cfg", str "# ", str ""),
  (str "*.conf", str "# ", str ""),
  (str "*.make", str "# ", str ""),
  (str "*.mk", str "# ", str ""),
  (str "*.cmake", str "# ", str ""),
  (str "*.dockerfile", str "# ", str ""),
  (str "*.gitignore", str "# ", str ""),
  (str "*.dockerignore", str "# ", str ""),
  (str "*.hs", str "-- ", str ""),
  (str "*.lhs", str "-- ", str ""),
  (str "*.elm", str "-- ", str ""),
  (str "*.ml", str "(* ", str " *)"),
  (str "*.mli", str "(* ", str " *)"),
  (str "*.fs", str "(* ", str " *)"),
  (str "*.fsx", str "(* ", str " *)"),
  (str "*.fsi", str "(* ", str " *)"),
  (str "*.erl", str "% ", str ""),
  (str "*.hrl", str "% ", str ""),
  (str "*.ex", str "# ", str ""),
  (str "*.exs", str "# ", str ""),
  (str "*.lua", str "-- ", str ""),
  (str "*.sql", str "-- ", str ""),
  (str "*.psql", str "-- ", str ""),
  (str "*.mysql", str "-- ", str ""),
  (str "*.sqlite", str "-- ", str ""),
  (str "*.m", str "% ", str ""),
  (str "*.jl", str "# ", str ""),
  (str "*.cr", str "# ", str ""),
  (str "*.nim", str "# ", str ""),
  (str "*.zig", str "// ", str ""),
  (str "*.d", str "// ", str ""),
  (str "*.ada", str "-- ", str ""),
  (str "*.adb", str "-- ", str ""),
  (str "*.ads", str "-- ", str ""),
  (str "*.cob", str "* ", str ""),
  (str "*.cbl", str "* ", str ""),
  (str "*.f", str "C ", str ""),
  (str "*.f90", str "! ", str ""),
  (str "*.f95", str "! ", str ""),
  (str "*.f03", str "! ", str ""),
  (str "*.f08", str "! ", str ""),
  (str "*.pas", str "(* ", str " *)"),
  (str "*.pp", str "(* ", str " *)"),
  (str "*.dpr", str "(* ", str " *)"),
  (str "*.vb", str "' ", str ""),
  (str "*.vbs", str "' ", str ""),
  (str "*.html", str "<!--", str "-->"),
  (str "*.htm", str "<!--", str "-->"),
  (str "*.xhtml", str "<!--", str "-->"),
  (str "*.xml", str "<!--", str "-->"),
  (str "*.xsl", str "<!--", str "-->"),
  (str "*.xslt", str "<!--", str "-->"),
  (str "*.svg", str "<!--", str "-->"),
  (str "*.vue", str "<!--", str "-->"),
  (str "*.md", str "<!--", str "-->"),
  (str "*.markdown", str "<!--", str "-->"),
  (str "*.mdown", str "<!--", str "-->"),
  (str "*.rst", str ".. ", str ""),
  (str "*.tex", str "% ", str ""),
  (str "*.latex", str "% ", str ""),
  (str "*.bib", str "% ", str ""),
  (str "*.ps1", str "# ", str ""),
  (str "*.psm1", str "# ", str ""),
  (str "*.psd1", str "# ", str ""),
  (str "*.bat", str "REM ", str ""),
  (str "*.cmd", str "REM ", str ""),
  (str "*.hcl", str "# ", str ""),
  (str "*.tf", str "# ", str ""),
  (str "*.tfvars", str "# ", str ""),
  (str "*.pkr.hcl", str "# ", str ""),
  (str "*.nomad", str "# ", str ""),
  (str "*.consul", str "# ", str ""),
  (str "*.vault", str "# ", str ""),
  (str "*.csv", str "# ", str ""),
  (str "*.tsv", str "# ", str ""),
  (str "*.txt", str "", str ""),
  (str "*.text", str "", str ""),
  (str "*.log", str "", str ""),
  (str "*.readme", str "", str "")]

/-- Python `ext in INCLUDED_EXTS` / `INCLUDED_EXTS[ext]` as one lookup. -/
def lookupExt (ext : Str) : Option (Str × Str) :=
  (INCLUDED_EXTS.find? (fun e => e.1 == ext)).map (fun e => e.2)

/-- EXCLUDED_EXTS: excluded path-segment and suffix tokens. -/
def EXCLUDED_EXTS : List Str := [
  str "exe", str "bin", str "class", str "pyc", str "pyo", str "pyd", str "so",
  str "dll", str "dylib", str "o", str "obj", str "a", str "lib",
  str "jar", str "war", str "ear", str "zip", str "tar", str "gz", str "rar",
  str "7z", str "bz2", str "xz",
  str "pdf", str "doc", str "docx", str "xls", str "xlsx", str "ppt", str "pptx",
  str "jpg", str "jpeg", str "png", str "gif", str "bmp", str "tiff", str "ico",
  str "mp3", str "mp4", str "avi", str "mkv", str "wav", str "flac", str "ogg",
  str "wma", str "mov", str "wmv", str "flv", str "webm",
  str "node_modules", str ".git", str ".svn", str ".hg", str "__pycache__",
  str ".pytest_cache", str ".vscode", str ".idea", str ".vs", str "dist",
  str "build", str "target", str "out", str ".next", str ".nuxt"]

/-- The extension-to-label table inside `generate_about_statement`. -/
def fileTypeMap : List (Str × Str) := [
  (str ".py", str "Python Script"),
  (str ".java", str "Java Source Code"),
  (str ".c", str "C Source Code"),
  (str ".cpp", str "C++ Source Code"),
  (str ".h", str "Header File"),
  (str ".js", str "JavaScript Source Code"),
  (str ".ts", str "TypeScript Source Code"),
  (str ".html", str "HTML Document"),
  (str ".css", str "CSS Stylesheet"),
  (str ".php", str "PHP Source Code"),
  (str ".rb", str "Ruby Script"),
  (str ".go", str "Go Source Code"),
  (str ".rs", str "Rust Source Code"),
  (str ".swift", str "Swift Source Code"),
  (str ".kt", str "Kotlin Source Code"),
  (str ".scala", str "Scala Source Code"),
  (str ".sh", str "Shell Script"),
  (str ".ps1", str "PowerShell Script"),
  (str ".sql", str "SQL Script"),
  (str ".r", str "R Script"),
  (str ".m", str "MATLAB Script"),
  (str ".lua", str "Lua Script"),
  (str ".pl", str "Perl Script"),
  (str ".yaml", str "YAML Configuration"),
  (str ".yml", str "YAML Configuration"),
  (str ".json", str "JSON Data"),
  (str ".xml", str "XML Document"),
  (str ".md", str "Markdown Document"),
  (str ".tex", str "LaTeX Document"),
  (str ".dockerfile", str "Docker Configuration")]

/-- `file_type_map.get(ext, 'Source Code')`. -/
def fileDescription (ext : Str) : Str :=
  ((fileTypeMap.find? (fun e => e.1 == ext)).map (fun e => e.2)).getD
    (str "Source Code")

/-- The fixed indicator list of `has_about_statement`. -/
def aboutIndicators (filename : Str) : List Str := [
  upperStr filename,
  str "Source Code",
  str "Author:",
  str "Created by:",
  str "Written by:",
  str "@author",
  str "* @file",
  str "* @brief",
  str "Module:",
  str "Script:",
  str "Program:"]

/-- `has_about_statement(content, filename)`: some indicator occurs in the
join of the first 20 lines. -/
def hasAboutStatement (content filename : Str) : Bool :=
  (aboutIndicators filename).any (fun ind => containsSub (firstLines 20 content) ind)

/-- `is_excluded_path(path)` over the path's parts. -/
def isExcludedPath (parts : List Str) : Bool :=
  (parts.any (fun part =>
    EXCLUDED_EXTS.any (fun ex =>
      ex == toLowerStr part ||
        (containsSub (toLowerStr part) ex && decide (3 < ex.length))))) ||
  (EXCLUDED_EXTS.any (fun ex =>
    ('.' :: ex).isSuffixOf (toLowerStr (parts.getLastD [])) ||
      toLowerStr (parts.getLastD []) == ex))

/-- Pattern normalization in `get_folder`: tokens lacking a leading star
are turned into `*.token` (or `*token` for dotted tokens). -/
def normalizePattern (ext : Str) : Str :=
  if (str "*").isPrefixOf ext then ext
  else if (str ".").isPrefixOf ext then '*' :: ext
  else str "*." ++ ext

/-- `get_folder`: the candidate list built by the tree walker.  The
filesystem is abstracted by `rglob` (paths enumerated for a pattern, as
lists of path parts) and the `is_file` predicate `isF`. -/
def getFolder (rglob : Str → List (List Str)) (isF : List Str → Bool)
    (exts : List Str) : List (List Str) :=
  exts.foldl (fun acc ext =>
    (rglob (normalizePattern ext)).foldl (fun acc2 child =>
      if isF child && !isExcludedPath child && !acc2.contains child
      then acc2 ++ [child] else acc2) acc) []

/-- Match of the regex alternative `<!DOCTYPE[^>]*>` at the start of `s`
(case-insensitive); returns the match length. -/
def matchDoctypeAt (s : Str) : Option Nat :=
  if toLowerStr (s.take 9) == str "<!doctype" then
    match (s.drop 9).findIdx? (fun c => c = '>') with
    | some j => some (9 + j + 1)
    | none => none
  else none

/-- Match of the regex alternative `<\?xml[^>]*\?>` at the start of `s`
(case-insensitive); returns the match length. -/
def matchXmlAt (s : Str) : Option Nat :=
  if toLowerStr (s.take 5) == str "<?xml" then
    match (s.drop 5).findIdx? (fun c => c = '>') with
    | some j =>
      if 1 ≤ j ∧ (s.drop 5).getD (j - 1) ' ' = '?' then some (5 + j + 1) else none
    | none => none
  else none

/-- Leftmost-match scan for `re.search(r'<!DOCTYPE[^>]*>|<\?xml[^>]*\?>', ...)`;
`i` is the absolute index of the scan position.  Returns (start, end). -/
def findDeclAux : Str → Nat → Option (Nat × Nat)
  | [], _ => none
  | c :: rest, i =>
    match matchDoctypeAt (c :: rest) with
    | some len => some (i, i + len)
    | none =>
      match matchXmlAt (c :: rest) with
      | some len => some (i, i + len)
      | none => findDeclAux rest (i + 1)

/-- The (start, end) span of the first DOCTYPE/xml declaration in `s`. -/
def findDeclEnd (s : Str) : Option (Nat × Nat) := findDeclAux s 0

/-- `generate_about_statement(filepath, name, comment_style)`; the
timestamp string `ts` abstracts `get_file_creation_time`. -/
def generateAboutStatement (fname author ts : Str) (style : Str × Str) : Str :=
  let filename := upperStr fname
  let ext := toLowerStr (pySuffix fname)
  let fdesc := fileDescription ext
  let sc := style.1
  let ec := style.2
  if ec ≠ [] then
    if ext = str ".py" then
      sc ++ (str "\n" ++ (filename ++ (str " - " ++ (fdesc ++ (str "\nAuthor: " ++
        (author ++ (str "\nCreated: " ++ (ts ++ (str "\n" ++ (ec ++ str "\n\n"))))))))))
    else if ext = str ".html" ∨ ext = str ".xml" ∨ ext = str ".svg" ∨ ext = str ".vue" then
      sc ++ (str "\n" ++ (filename ++ (str " - " ++ (fdesc ++ (str "\nAuthor: " ++
        (author ++ (str "\nCreated: " ++ (ts ++ (str "\n" ++ (ec ++ str "\n\n"))))))))))
    else
      sc ++ (str "\n * " ++ (filename ++ (str " - " ++ (fdesc ++ (str "\n * Author: " ++
        (author ++ (str "\n * Created: " ++ (ts ++ (str "\n " ++ (ec ++ str "\n\n"))))))))))
  else
    if ext = str ".r" ∨ ext = str ".R" then
      sc ++ (filename ++ (str " - " ++ (fdesc ++ (str "\n" ++ (sc ++ (str "Author: " ++
        (author ++ (str "\nCreated: " ++ (ts ++ str "\n\n")))))))))
    else
      sc ++ (filename ++ (str " - " ++ (fdesc ++ (str "\n" ++ (sc ++ (str "Author: " ++
        (author ++ (str "\nCreated: " ++ (ts ++ str "\n\n")))))))))

/-- The `insert_line` computed by the Python-family rule of `edit_file`:
1 past a leading shebang line, plus 1 past a following line containing
"coding". -/
def pyInsertPos (lines : List Str) : Nat :=
  let k1 := if !lines.isEmpty && (str "#!").isPrefixOf (lines.headD []) then 1 else 0
  if k1 < lines.length then
    if containsSub (lines.getD k1 []) (str "coding") then k1 + 1 else k1
  else k1

/-- The Python-family insertion rule of `edit_file`: skip a shebang line
and a following line containing "coding", then splice the statement. -/
def pyInsert (stmt content : Str) : Str :=
  let lines := splitNl content
  joinNl (lines.take (pyInsertPos lines) ++ ([stmt] ++ lines.drop (pyInsertPos lines)))

/-- The insertion engine of `edit_file` (the special-case dispatch on the
extension key). -/
def insertStatement (ext stmt content : Str) : Str :=
  if ext == str "*.php" then
    if (str "<?php").isPrefixOf content then
      if containsSub content (str "?>") then stmt ++ content
      else
        if pyStrip ((splitNl content).headD []) == str "<?php" then
          (splitNl content).headD [] ++ (str "\n\n" ++ (stmt ++ joinNl (splitNl content).tail))
        else stmt ++ content
    else str "<?php\n\n" ++ (stmt ++ content)
  else if ext == str "*.html" || ext == str "*.htm" || ext == str "*.xml" || ext == str "*.svg" then
    match findDeclEnd content with
    | some ie => content.take ie.2 ++ (str "\n\n" ++ (stmt ++ content.drop ie.2))
    | none => stmt ++ content
  else if ext == str "*.py" then
    pyInsert stmt content
  else stmt ++ content

/-- The abstract per-file state seen by `edit_file`: the file name (last
path component), existence and kind flags, the decoded content (`none`
models a read failure), the `st_size` used for the backup decision, and
flags telling whether the backup and main writes succeed. -/
structure FileState where
  fname : Str
  fexists : Bool
  isFile : Bool
  content? : Option Str
  size : Nat
  backupOk : Bool
  mainOk : Bool
deriving DecidableEq

/-- The outcome of `edit_file`: the returned status string and the list of
completed writes (path, content), in order. -/
structure EditOutcome where
  status : String
  writes : List (Str × Str)
deriving DecidableEq

/-- `edit_file(filepath, name, force, verbose)`: the whole per-file
pipeline.  `ts` abstracts the timestamp. -/
def editFile (f : FileState) (author ts : Str) (force : Bool) : EditOutcome :=
  if !f.fexists then ⟨"error", []⟩
  else if !f.isFile then ⟨"error", []⟩
  else
    match lookupExt (extKey f.fname) with
    | none => ⟨"error", []⟩
    | some style =>
      match f.content? with
      | none => ⟨"error", []⟩
      | some content =>
        if hasAboutStatement content f.fname && !force then ⟨"skipped", []⟩
        else
          let stmt := generateAboutStatement f.fname author ts style
          let newContent := insertStatement (extKey f.fname) stmt content
          if 10000 < f.size then
            if !f.backupOk then ⟨"error", []⟩
            else if !f.mainOk then
              ⟨"error", [(withSuffix f.fname (pySuffix f.fname ++ str ".bak"), content)]⟩
            else
              ⟨"processed",
                [(withSuffix f.fname (pySuffix f.fname ++ str ".bak"), content),
                 (f.fname, newContent)]⟩
          else if !f.mainOk then ⟨"error", []⟩
          else ⟨"processed", [(f.fname, newContent)]⟩

/-- The per-file loop of `perm_edit`: counts of processed, skipped and
error outcomes over the candidate list (paths that are not files are
silently passed over, as in the source). -/
def permEditCounts (files : List FileState) (author ts : Str) (force : Bool) :
    Nat × Nat × Nat :=
  files.foldl (fun acc f =>
    if f.isFile then
      let r := (editFile f author ts force).status
      if r = "processed" then (acc.1 + 1, acc.2.1, acc.2.2)
      else if r = "skipped" then (acc.1, acc.2.1 + 1, acc.2.2)
      else (acc.1, acc.2.1, acc.2.2 + 1)
    else acc) (0, 0, 0)

/-- The kind of the resolved target path in `main`. -/
inductive PathKind where
  | missing
  | dir
  | file
  | other
deriving DecidableEq

/-- The abstract invocation state of `main`: author argument, kind of the
target path, the candidate list collected in directory mode, the single
file in file mode, the timestamp and the force flag. -/
structure MainWorld where
  author : Str
  kind : PathKind
  candidates : List FileState
  single : FileState
  ts : Str
  force : Bool

/-- The return value of `main()`. -/
def mainExit (w : MainWorld) : Nat :=
  if pyStrip w.author = [] then 1
  else
    match w.kind with
    | .missing => 1
    | .dir => if w.candidates = [] then 1 else 0
    | .file =>
      let r := (editFile w.single w.author w.ts w.force).status
      if r = "processed" then 0 else if r = "skipped" then 0 else 1
    | .other => 1

/-- How the `__main__` guard ends: `main` returned a code, the run was
cancelled externally, or an unexpected exception escaped. -/
inductive RunOutcome where
  | normal (code : Nat)
  | interrupted
  | crashed

/-- The process exit code produced by the `__main__` guard. -/
def processExit : RunOutcome → Nat
  | .normal code => code
  | .interrupted => 130
  | .crashed => 1

/-! ### Basic facts about the line-splitting and joining model -/

theorem splitNl_ne_nil (s : Str) : splitNl s ≠ [] := by
  cases s with
  | nil => simp [splitNl]
  | cons c rest =>
    simp only [splitNl]
    split
    · simp
    · split <;> simp

theorem exists_splitNl_cons (s : Str) : ∃ l ls, splitNl s = l :: ls := by
  cases h : splitNl s with
  | nil => exact absurd h (splitNl_ne_nil s)
  | cons l ls => exact ⟨l, ls, rfl⟩

theorem splitNl_newline (x : Str) : splitNl ('\n' :: x) = [] :: splitNl x := by
  simp [splitNl]

theorem splitNl_cons_ne (c : Char) (x : Str) (hc : c ≠ '\n') :
    splitNl (c :: x) = (c :: (splitNl x).headD []) :: (splitNl x).tail := by
  obtain ⟨l, ls, hx⟩ := exists_splitNl_cons x
  simp [splitNl, if_neg hc, hx]

theorem joinNl_cons_cons (c : Char) (l : Str) (T : List Str) :
    joinNl ((c :: l) :: T) = c :: joinNl (l :: T) := by
  cases T <;> simp [joinNl]

theorem joinNl_nil_cons (h : Str) (t : List Str) :
    joinNl ([] :: h :: t) = '\n' :: joinNl (h :: t) := by
  simp [joinNl]

theorem joinNl_splitNl (s : Str) : joinNl (splitNl s) = s := by
  induction s with
  | nil => simp [splitNl, joinNl]
  | cons c rest ih =>
    by_cases hc : c = '\n'
    · subst hc
      rw [splitNl_newline]
      obtain ⟨l, ls, hx⟩ := exists_splitNl_cons rest
      rw [hx]
      rw [hx] at ih
      rw [joinNl_nil_cons, ih]
    · rw [splitNl_cons_ne c rest hc]
      obtain ⟨l, ls, hx⟩ := exists_splitNl_cons rest
      rw [hx]
      rw [hx] at ih
      simpa [joinNl_cons_cons] using congrArg (c :: ·) ih

theorem mem_splitNl_no_newline (s : Str) : ∀ l ∈ splitNl s, ('\n' : Char) ∉ l := by
  induction s with
  | nil => intro l hl; simp [splitNl] at hl; simp [hl]
  | cons c rest ih =>
    intro l hl
    by_cases hc : c = '\n'
    · subst hc
      rw [splitNl_newline] at hl
      rcases List.mem_cons.mp hl with rfl | hl
      · simp
      · exact ih l hl
    · rw [splitNl_cons_ne c rest hc] at hl
      obtain ⟨l0, ls, hx⟩ := exists_splitNl_cons rest
      rw [hx] at hl
      simp only [List.headD_cons, List.tail_cons, List.mem_cons] at hl
      rcases hl with rfl | hl
      · intro hmem
        rcases List.mem_cons.mp hmem with h | h
        · exact hc h.symm
        · exact ih l0 (hx ▸ List.mem_cons_self _ _) h
      · exact ih l (hx ▸ List.mem_cons_of_mem _ hl)

theorem joinNl_append (A B : List Str) (hA : A ≠ []) (hB : B ≠ []) :
    joinNl (A ++ B) = joinNl A ++ '\n' :: joinNl B := by
  induction A with
  | nil => exact absurd rfl hA
  | cons a A' ih =>
    cases A' with
    | nil =>
      cases B with
      | nil => exact absurd rfl hB
      | cons b bs => simp [joinNl]
    | cons a2 A'' =>
      have h1 : joinNl (a :: a2 :: (A'' ++ B)) = a ++ '\n' :: joinNl (a2 :: (A'' ++ B)) := by
        simp [joinNl]
      have h2 := ih (by simp)
      calc joinNl ((a :: a2 :: A'') ++ B) = a ++ '\n' :: joinNl ((a2 :: A'') ++ B) := by
            simp only [List.cons_append]; exact h1
        _ = a ++ '\n' :: (joinNl (a2 :: A'') ++ '\n' :: joinNl B) := by rw [h2]
        _ = joinNl (a :: a2 :: A'') ++ '\n' :: joinNl B := by simp [joinNl]

theorem count_joinNl_le (T : List Str) (h : ∀ l ∈ T, ('\n' : Char) ∉ l) :
    (joinNl T).count '\n' ≤ T.length := by
  induction T with
  | nil => simp [joinNl]
  | cons x T' ih =>
    cases T' with
    | nil =>
      have : x.count '\n' = 0 := List.count_eq_zero.mpr (h x (by simp))
      simpa [joinNl, this] using Nat.zero_le 1
    | cons y t =>
      have hx : x.count '\n' = 0 := List.count_eq_zero.mpr (h x (by simp))
      have hy := ih (fun l hl => h l (List.mem_cons_of_mem _ hl))
      have : joinNl (x :: y :: t) = x ++ '\n' :: joinNl (y :: t) := by simp [joinNl]
      rw [this]
      rw [List.count_append, hx]
      have hcc : (('\n' : Char) :: joinNl (y :: t)).count '\n' =
          (joinNl (y :: t)).count '\n' + 1 := by simp
      rw [hcc]
      simp only [List.length_cons] at hy ⊢
      omega

theorem firstLines_append (p : Str) : ∀ (k : Nat) (q : Str), p.count '\n' < k →
    firstLines k (p ++ q) = p ++ firstLines (k - p.count '\n') q := by
  induction p with
  | nil => intro k q h; simp
  | cons c p' ih =>
    intro k q h
    by_cases hc : c = '\n'
    · subst hc
      have hcount : (('\n' : Char) :: p').count '\n' = p'.count '\n' + 1 := by simp
      rw [hcount] at h ⊢
      obtain ⟨k', rfl⟩ : ∃ k', k = k' + 1 := ⟨k - 1, by omega⟩
      have hk' : p'.count '\n' < k' := by omega
      show joinNl ((splitNl (('\n' : Char) :: (p' ++ q))).take (k' + 1)) = _
      rw [splitNl_newline, List.take_succ_cons]
      have hne : (splitNl (p' ++ q)).take k' ≠ [] := by
        rw [Ne, List.take_eq_nil_iff]
        push_neg
        exact ⟨by omega, splitNl_ne_nil _⟩
      obtain ⟨t, ts, ht⟩ : ∃ t ts, (splitNl (p' ++ q)).take k' = t :: ts := by
        cases h' : (splitNl (p' ++ q)).take k' with
        | nil => exact absurd h' hne
        | cons t ts => exact ⟨t, ts, rfl⟩
      rw [ht, joinNl_nil_cons, ← ht]
      have hih := ih k' q hk'
      unfold firstLines at hih
      rw [hih]
      have harith : k' + 1 - (p'.count '\n' + 1) = k' - p'.count '\n' := by omega
      simp only [harith, List.cons_append, List.nil_append]
      rfl
    · have hcount : (c :: p').count '\n' = p'.count '\n' := by
        simp [List.count_cons, hc]
      rw [hcount] at h ⊢
      obtain ⟨k', rfl⟩ : ∃ k', k = k' + 1 := ⟨k - 1, by omega⟩
      show joinNl ((splitNl (c :: (p' ++ q))).take (k' + 1)) = _
      rw [splitNl_cons_ne c _ hc]
      obtain ⟨l, ls, hx⟩ := exists_splitNl_cons (p' ++ q)
      rw [hx]
      simp only [List.headD_cons, List.tail_cons]
      rw [List.take_succ_cons, joinNl_cons_cons]
      have hih := ih (k' + 1) q h
      unfold firstLines at hih
      rw [hx, List.take_succ_cons] at hih
      rw [hih]
      simp only [List.cons_append]
      rfl

theorem containsSub_iff (hay needle : Str) :
    containsSub hay needle = true ↔ ∃ a b, hay = a ++ (needle ++ b) := by
  induction hay with
  | nil =>
    simp only [containsSub, List.isEmpty_iff]
    constructor
    · rintro rfl; exact ⟨[], [], rfl⟩
    · rintro ⟨a, b, h⟩
      have h' := h.symm
      simp only [List.append_eq_nil] at h'
      exact h'.2.1
  | cons c t ih =>
    simp only [containsSub, Bool.or_eq_true]
    constructor
    · rintro (hp | hrec)
      · rw [List.isPrefixOf_iff_prefix] at hp
        obtain ⟨b, hb⟩ := hp
        exact ⟨[], b, by simp [← hb]⟩
      · obtain ⟨a, b, hab⟩ := ih.mp hrec
        exact ⟨c :: a, b, by simp [hab]⟩
    · rintro ⟨a, b, hab⟩
      cases a with
      | nil =>
        left
        rw [List.isPrefixOf_iff_prefix]
        exact ⟨b, by simp [hab]⟩
      | cons a0 a' =>
        right
        apply ih.mpr
        simp only [List.cons_append] at hab
        injection hab with h1 h2
        exact ⟨a', b, h2⟩

/-! ### The header detector fires on any inserted "Author:" line among the
first twenty lines -/

theorem hasAbout_of_indicator (s fname ind : Str) (hmem : ind ∈ aboutIndicators fname)
    (h : containsSub (firstLines 20 s) ind = true) : hasAboutStatement s fname = true :=
  List.any_eq_true.mpr ⟨ind, hmem, h⟩

theorem hasAbout_of_author (s fname P Q : Str)
    (hs : s = P ++ (str "Author:" ++ Q)) (hc : P.count '\n' ≤ 19) :
    hasAboutStatement s fname = true := by
  apply hasAbout_of_indicator s fname (str "Author:") (by simp [aboutIndicators])
  apply (containsSub_iff _ _).mpr
  have hA : (str "Author:").count '\n' = 0 := by decide
  have h1 : firstLines 20 s = P ++ firstLines (20 - P.count '\n') (str "Author:" ++ Q) := by
    rw [hs, ← List.append_assoc]
    have := firstLines_append P 20 (str "Author:" ++ Q) (by omega)
    rw [← List.append_assoc] at this
    exact this
  have h2 : firstLines (20 - P.count '\n') (str "Author:" ++ Q) =
      str "Author:" ++ firstLines (20 - P.count '\n' - 0) Q := by
    have := firstLines_append (str "Author:") (20 - P.count '\n') Q (by rw [hA]; omega)
    rw [hA] at this
    exact this
  exact ⟨P, firstLines (20 - P.count '\n' - 0) Q, by rw [h1, h2]⟩

/-! ### Bounds for the declaration matcher -/

theorem findIdx?_bounds {α : Type} (p : α → Bool) :
    ∀ (l : List α) (i j : Nat), l.findIdx? p i = some j → i ≤ j ∧ j < i + l.length := by
  intro l
  induction l with
  | nil => intro i j h; simp [List.findIdx?] at h
  | cons a t ih =>
    intro i j h
    rw [List.findIdx?] at h
    split at h
    · cases h
      simp
    · obtain ⟨hle, hlt⟩ := ih (i + 1) j h
      constructor
      · omega
      · simp only [List.length_cons]; omega

theorem matchDoctypeAt_bounds (s : Str) (len : Nat) (h : matchDoctypeAt s = some len) :
    0 < len ∧ len ≤ s.length := by
  unfold matchDoctypeAt at h
  split at h
  · rename_i hpre
    cases hj : (s.drop 9).findIdx? (fun c => c = '>') with
    | none => rw [hj] at h; cases h
    | some j =>
      rw [hj] at h
      injection h with hlen
      have hb := findIdx?_bounds (fun c => c = '>') (s.drop 9) 0 j hj
      have h9 : 9 ≤ s.length := by
        have := congrArg List.length (eq_of_beq hpre)
        simp [toLowerStr, str] at this
        omega
      rw [List.length_drop] at hb
      omega
  · cases h

theorem matchXmlAt_bounds (s : Str) (len : Nat) (h : matchXmlAt s = some len) :
    0 < len ∧ len ≤ s.length := by
  unfold matchXmlAt at h
  split at h
  · rename_i hpre
    split at h
    · rename_i j hj
      split at h
      · injection h with hlen
        have hb := findIdx?_bounds (fun c => c = '>') (s.drop 5) 0 j hj
        have h5 : 5 ≤ s.length := by
          have := congrArg List.length (eq_of_beq hpre)
          simp [toLowerStr, str] at this
          omega
        rw [List.length_drop] at hb
        omega
      · cases h
    · cases h
  · cases h

theorem findDeclAux_bounds : ∀ (s : Str) (i0 i e : Nat), findDeclAux s i0 = some (i, e) →
    i0 ≤ i ∧ i < e ∧ e ≤ i0 + s.length := by
  intro s
  induction s with
  | nil => intro i0 i e h; simp [findDeclAux] at h
  | cons c rest ih =>
    intro i0 i e h
    unfold findDeclAux at h
    cases hd : matchDoctypeAt (c :: rest) with
    | some len =>
      rw [hd] at h
      injection h with h'
      injection h' with h1 h2
      obtain ⟨hpos, hle⟩ := matchDoctypeAt_bounds _ _ hd
      subst h1; subst h2
      refine ⟨Nat.le_refl _, by omega, by omega⟩
    | none =>
      rw [hd] at h
      cases hx : matchXmlAt (c :: rest) with
      | some len =>
        rw [hx] at h
        injection h with h'
        injection h' with h1 h2
        obtain ⟨hpos, hle⟩ := matchXmlAt_bounds _ _ hx
        subst h1; subst h2
        refine ⟨Nat.le_refl _, by omega, by omega⟩
      | none =>
        rw [hx] at h
        obtain ⟨ha, hb, hc⟩ := ih (i0 + 1) i e h
        simp only [List.length_cons]
        refine ⟨by omega, hb, by omega⟩

theorem findDeclEnd_bounds (s : Str) (i e : Nat) (h : findDeclEnd s = some (i, e)) :
    0 < e ∧ e ≤ s.length := by
  obtain ⟨ha, hb, hc⟩ := findDeclAux_bounds s 0 i e h
  omega

/-! ### The backup path appends the fixed suffix to the file name -/

theorem pySuffix_cases (name : Str) :
    pySuffix name = [] ∨ ∃ i, i ≤ name.length ∧ pySuffix name = name.drop i := by
  unfold pySuffix
  cases hf : name.reverse.findIdx? (fun c => c = '.') with
  | none => exact Or.inl rfl
  | some j =>
    simp only
    split
    · rename_i hcond
      exact Or.inr ⟨name.length - 1 - j, by omega, rfl⟩
    · exact Or.inl rfl

theorem withSuffix_bak (name suf2 : Str) :
    withSuffix name (pySuffix name ++ suf2) = name ++ suf2 := by
  unfold withSuffix
  rw [← List.append_assoc]
  congr 1
  rcases pySuffix_cases name with h | ⟨i, hi, h⟩
  · rw [h]
    simp
  · rw [h, List.length_drop]
    have : name.length - (name.length - i) = i := by omega
    rw [this, List.take_append_drop]

/-! ### Facts about the constant tables -/

set_option maxRecDepth 8000 in
theorem registry_no_newline :
    ∀ e ∈ INCLUDED_EXTS, ('\n' : Char) ∉ e.2.1 ∧ ('\n' : Char) ∉ e.2.2 := by decide

theorem fileTypeMap_no_newline : ∀ y ∈ fileTypeMap, ('\n' : Char) ∉ y.2 := by decide

theorem fileDescription_no_newline (e : Str) : ('\n' : Char) ∉ fileDescription e := by
  unfold fileDescription
  cases hf : fileTypeMap.find? (fun x => x.1 == e) with
  | none =>
    simp only [hf, Option.map_none', Option.getD_none]
    decide
  | some x =>
    have hx := List.mem_of_find?_eq_some hf
    simp only [hf, Option.map_some', Option.getD_some]
    exact fileTypeMap_no_newline x hx

/-! ### Every generated statement carries an "Author:" token after at most
two newlines -/

theorem generate_author_decomp (fname author ts : Str) (style : Str × Str)
    (hno : ('\n' : Char) ∉ style.1) (hnf : ('\n' : Char) ∉ upperStr fname) :
    ∃ A B, generateAboutStatement fname author ts style = A ++ (str "Author:" ++ B) ∧
      A.count '\n' ≤ 2 := by
  have hsc : style.1.count '\n' = 0 := List.count_eq_zero.mpr hno
  have hfn : (upperStr fname).count '\n' = 0 := List.count_eq_zero.mpr hnf
  have hfd : (fileDescription (toLowerStr (pySuffix fname))).count '\n' = 0 :=
    List.count_eq_zero.mpr (fileDescription_no_newline _)
  have e1 : (str "\nAuthor: " : Str) = str "\n" ++ (str "Author:" ++ str " ") := rfl
  have e2 : (str "\n * Author: " : Str) = str "\n * " ++ (str "Author:" ++ str " ") := rfl
  have e3 : (str "Author: " : Str) = str "Author:" ++ str " " := rfl
  have c1 : (str "\n" : Str).count '\n' = 1 := by decide
  have c2 : (str " - " : Str).count '\n' = 0 := by decide
  have c3 : (str "\n * " : Str).count '\n' = 1 := by decide
  unfold generateAboutStatement
  dsimp only
  split
  · split
    · refine ⟨style.1 ++ (str "\n" ++ (upperStr fname ++ (str " - " ++
        (fileDescription (toLowerStr (pySuffix fname)) ++ str "\n")))),
        str " " ++ (author ++ (str "\nCreated: " ++ (ts ++ (str "\n" ++ (style.2 ++ str "\n\n"))))),
        ?_, ?_⟩
      · rw [e1]; simp [List.append_assoc]
      · simp [List.count_append, hsc, hfn, hfd, c1, c2]
    · split
      · refine ⟨style.1 ++ (str "\n" ++ (upperStr fname ++ (str " - " ++
          (fileDescription (toLowerStr (pySuffix fname)) ++ str "\n")))),
          str " " ++ (author ++ (str "\nCreated: " ++ (ts ++ (str "\n" ++ (style.2 ++ str "\n\n"))))),
          ?_, ?_⟩
        · rw [e1]; simp [List.append_assoc]
        · simp [List.count_append, hsc, hfn, hfd, c1, c2]
      · refine ⟨style.1 ++ (str "\n * " ++ (upperStr fname ++ (str " - " ++
          (fileDescription (toLowerStr (pySuffix fname)) ++ str "\n * ")))),
          str " " ++ (author ++ (str "\n * Created: " ++ (ts ++ (str "\n " ++ (style.2 ++ str "\n\n"))))),
          ?_, ?_⟩
        · rw [e2]; simp [List.append_assoc]
        · simp [List.count_append, hsc, hfn, hfd, c2, c3]
  · split
    · refine ⟨style.1 ++ (upperStr fname ++ (str " - " ++
        (fileDescription (toLowerStr (pySuffix fname)) ++ (str "\n" ++ style.1)))),
        str " " ++ (author ++ (str "\nCreated: " ++ (ts ++ str "\n\n"))),
        ?_, ?_⟩
      · rw [e3]; simp [List.append_assoc]
      · simp [List.count_append, hsc, hfn, hfd, c1, c2]
    · refine ⟨style.1 ++ (upperStr fname ++ (str " - " ++
        (fileDescription (toLowerStr (pySuffix fname)) ++ (str "\n" ++ style.1)))),
        str " " ++ (author ++ (str "\nCreated: " ++ (ts ++ str "\n\n"))),
        ?_, ?_⟩
      · rw [e3]; simp [List.append_assoc]
      · simp [List.count_append, hsc, hfn, hfd, c1, c2]

/-! ### Decomposition of the insertion engine: the original content is cut
at the preserved preamble and reassembled around the statement with only
fixed small glue strings -/

theorem pyInsertPos_le (lines : List Str) : pyInsertPos lines ≤ 2 := by
  unfold pyInsertPos
  dsimp only
  split_ifs <;> omega

theorem joinNl_splice_decomp (L : List Str) (stmt : Str) (k : Nat) (hk : k ≤ 2)
    (hL : L ≠ []) (hmem : ∀ l ∈ L, ('\n' : Char) ∉ l) :
    ∃ p r g₁ g₂, joinNl L = p ++ r ∧
      joinNl (L.take k ++ ([stmt] ++ L.drop k)) = p ++ (g₁ ++ (stmt ++ (g₂ ++ r))) ∧
      (g₁ = [] ∨ g₁ = str "\n") ∧ (g₂ = [] ∨ g₂ = str "\n") ∧ p.count '\n' ≤ 3 := by
  have hsn : (str "\n" : Str) = ['\n'] := rfl
  by_cases hT : L.take k = []
  · have hk0 : L.drop k = L := by
      rcases List.take_eq_nil_iff.mp hT with rfl | rfl
      · exact List.drop_zero L
      · exact absurd rfl hL
    obtain ⟨l0, ls, hL'⟩ : ∃ l0 ls, L = l0 :: ls := by
      cases L with
      | nil => exact absurd rfl hL
      | cons l0 ls => exact ⟨l0, ls, rfl⟩
    rw [hT, hk0, hL']
    refine ⟨[], joinNl (l0 :: ls), [], str "\n", by simp, ?_, Or.inl rfl,
      Or.inr rfl, by simp⟩
    simp [joinNl, hsn]
  · by_cases hD : L.drop k = []
    · have hlen : L.length ≤ k := List.drop_eq_nil_iff.mp hD
      have hTL : L.take k = L := List.take_of_length_le hlen
      rw [hD, hTL]
      have hj := joinNl_append L [stmt] hL (by simp)
      refine ⟨joinNl L, [], str "\n", [], by simp, ?_, Or.inr rfl, Or.inl rfl, ?_⟩
      · rw [List.append_nil, hj]
        simp [joinNl, hsn]
      · have hc := count_joinNl_le L hmem
        omega
    · have hj1 := joinNl_append (L.take k) ([stmt] ++ L.drop k) hT (by simp)
      have hj2 : joinNl ([stmt] ++ L.drop k) = stmt ++ '\n' :: joinNl (L.drop k) := by
        obtain ⟨d0, ds, hD'⟩ : ∃ d0 ds, L.drop k = d0 :: ds := by
          cases h' : L.drop k with
          | nil => exact absurd h' hD
          | cons d0 ds => exact ⟨d0, ds, rfl⟩
        rw [hD']
        simp [joinNl]
      have hj3 := joinNl_append (L.take k) (L.drop k) hT hD
      have hcontent : joinNl L = joinNl (L.take k) ++ '\n' :: joinNl (L.drop k) := by
        conv_lhs => rw [← List.take_append_drop k L]
        exact hj3
      have hcount : (joinNl (L.take k)).count '\n' ≤ 2 := by
        have hle := count_joinNl_le (L.take k) (fun l hl => hmem l (List.mem_of_mem_take hl))
        have hlk : (L.take k).length ≤ k := by
          rw [List.length_take]; omega
        omega
      refine ⟨joinNl (L.take k) ++ str "\n", joinNl (L.drop k), [], str "\n", ?_, ?_,
        Or.inl rfl, Or.inr rfl, ?_⟩
      · rw [hcontent, hsn]; simp
      · rw [hj1, hj2, hsn]; simp
      · rw [List.count_append, hsn]
        have : (['\n'] : Str).count '\n' = 1 := by decide
        omega

theorem pyInsert_decomp (stmt content : Str) :
    ∃ p r g₁ g₂, content = p ++ r ∧
      pyInsert stmt content = p ++ (g₁ ++ (stmt ++ (g₂ ++ r))) ∧
      (g₁ = [] ∨ g₁ = str "\n") ∧ (g₂ = [] ∨ g₂ = str "\n") ∧ p.count '\n' ≤ 3 := by
  have h := joinNl_splice_decomp (splitNl content) stmt (pyInsertPos (splitNl content))
    (pyInsertPos_le _) (splitNl_ne_nil content) (mem_splitNl_no_newline content)
  rw [joinNl_splitNl] at h
  exact h

theorem insert_decomp (ext stmt content : Str) :
    ∃ p r g₁ g₂, content = p ++ r ∧
      insertStatement ext stmt content = p ++ (g₁ ++ (stmt ++ (g₂ ++ r))) ∧
      (g₁ = [] ∨ g₁ = str "\n" ∨ g₁ = str "\n\n" ∨ g₁ = str "<?php\n\n") ∧
      (g₂ = [] ∨ g₂ = str "\n") ∧
      (p.count '\n' ≤ 3 ∨
        ∃ i e, findDeclEnd content = some (i, e) ∧ p = content.take e ∧
          (ext = str "*.html" ∨ ext = str "*.htm" ∨ ext = str "*.xml" ∨ ext = str "*.svg")) := by
  unfold insertStatement
  by_cases hphp : (ext == str "*.php") = true
  · rw [if_pos hphp]
    by_cases hpre : ((str "<?php").isPrefixOf content) = true
    · rw [if_pos hpre]
      by_cases hq : containsSub content (str "?>") = true
      · rw [if_pos hq]
        exact ⟨[], content, [], [], by simp, by simp, Or.inl rfl, Or.inl rfl,
          Or.inl (by simp)⟩
      · rw [if_neg hq]
        by_cases hs : (pyStrip ((splitNl content).headD []) == str "<?php") = true
        · rw [if_pos hs]
          obtain ⟨l0, tl, hL⟩ := exists_splitNl_cons content
          have hcontent : content = joinNl (l0 :: tl) := by rw [← hL, joinNl_splitNl]
          have hl0 : ('\n' : Char) ∉ l0 :=
            mem_splitNl_no_newline content l0 (hL ▸ List.mem_cons_self _ _)
          rw [hL]
          simp only [List.headD_cons, List.tail_cons]
          cases tl with
          | nil =>
            refine ⟨l0, [], str "\n\n", [], by simpa [joinNl] using hcontent, ?_,
              Or.inr (Or.inr (Or.inl rfl)), Or.inl rfl, Or.inl ?_⟩
            · simp [joinNl]
            · simp [List.count_eq_zero.mpr hl0]
          | cons t1 ts =>
            have hjc : joinNl (l0 :: t1 :: ts) = l0 ++ '\n' :: joinNl (t1 :: ts) := by
              simp [joinNl]
            have hsn : (str "\n" : Str) = ['\n'] := rfl
            have hnn : (str "\n\n" : Str) = ['\n', '\n'] := rfl
            refine ⟨l0 ++ str "\n", joinNl (t1 :: ts), str "\n", [], ?_, ?_,
              Or.inr (Or.inl rfl), Or.inl rfl, Or.inl ?_⟩
            · rw [hcontent, hjc, hsn]; simp
            · rw [hnn, hsn]; simp
            · rw [List.count_append, List.count_eq_zero.mpr hl0, hsn]
              decide
        · rw [if_neg hs]
          exact ⟨[], content, [], [], by simp, by simp, Or.inl rfl, Or.inl rfl,
            Or.inl (by simp)⟩
    · rw [if_neg hpre]
      exact ⟨[], content, str "<?php\n\n", [], by simp, by simp,
        Or.inr (Or.inr (Or.inr rfl)), Or.inl rfl, Or.inl (by simp)⟩
  · rw [if_neg hphp]
    by_cases hmk : (ext == str "*.html" || ext == str "*.htm" || ext == str "*.xml" ||
        ext == str "*.svg") = true
    · rw [if_pos hmk]
      have hmk' : ext = str "*.html" ∨ ext = str "*.htm" ∨ ext = str "*.xml" ∨
          ext = str "*.svg" := by
        simpa [Bool.or_eq_true, beq_iff_eq, or_assoc] using hmk
      cases hfd : findDeclEnd content with
      | some ie =>
        simp only [hfd]
        refine ⟨content.take ie.2, content.drop ie.2, str "\n\n", [],
          (List.take_append_drop _ _).symm, by simp,
          Or.inr (Or.inr (Or.inl rfl)), Or.inl rfl,
          Or.inr ⟨ie.1, ie.2, by simpa using hfd, rfl, hmk'⟩⟩
      | none =>
        simp only [hfd]
        exact ⟨[], content, [], [], by simp, by simp, Or.inl rfl, Or.inl rfl,
          Or.inl (by simp)⟩
    · rw [if_neg hmk]
      by_cases hpy : (ext == str "*.py") = true
      · rw [if_pos hpy]
        obtain ⟨p, r, g₁, g₂, h1, h2, h3, h4, h5⟩ := pyInsert_decomp stmt content
        refine ⟨p, r, g₁, g₂, h1, h2, ?_, h4, Or.inl h5⟩
        rcases h3 with rfl | rfl
        · exact Or.inl rfl
        · exact Or.inr (Or.inl rfl)
      · rw [if_neg hpy]
        exact ⟨[], content, [], [], by simp, by simp, Or.inl rfl, Or.inl rfl,
          Or.inl (by simp)⟩

/-- After any insertion of a generated statement, the "Author:" token of the
statement lies within the first 20 lines of the new content, provided a
declaration match (markup families only) does not push the insertion point
past line 16. -/
theorem hasAbout_insert (ext stmt content fname : Str)
    (hstmt : ∃ A B, stmt = A ++ (str "Author:" ++ B) ∧ A.count '\n' ≤ 2)
    (hdecl : ∀ i e, findDeclEnd content = some (i, e) →
      (ext = str "*.html" ∨ ext = str "*.htm" ∨ ext = str "*.xml" ∨ ext = str "*.svg") →
      (content.take e).count '\n' ≤ 15) :
    hasAboutStatement (insertStatement ext stmt content) fname = true := by
  obtain ⟨A, B, hAB, hA⟩ := hstmt
  obtain ⟨p, r, g₁, g₂, hpr, hins, hg₁, hg₂, hcnt⟩ := insert_decomp ext stmt content
  apply hasAbout_of_author _ fname (p ++ (g₁ ++ A)) (B ++ (g₂ ++ r))
  · rw [hins, hAB]
    simp [List.append_assoc]
  · have hg₁c : g₁.count '\n' ≤ 2 := by
      rcases hg₁ with rfl | rfl | rfl | rfl <;> decide
    have hpc : p.count '\n' ≤ 15 := by
      rcases hcnt with h | ⟨i, e, hfd, rfl, hext⟩
      · omega
      · exact hdecl i e hfd hext
    rw [List.count_append, List.count_append]
    omega

/-! ### Claim theorems -/

/-- C2: content preservation on insertion.  For every extension key and
every original content, the inserted result splits the original into a
preserved prefix `p` and a remainder `r`, reassembled as
`p ++ glue ++ statement ++ glue ++ r` where the glue strings are only the
fixed separators (empty, a newline, a blank line, or the synthesized PHP
open tag); in particular the remainder, and in the non-special families the
whole original content, survives byte for byte as a contiguous suffix, and
the preserved preamble stands verbatim at the start. -/
theorem C2_insertion_preserves_content (ext stmt content : Str) :
    (∃ p r g₁ g₂, content = p ++ r ∧
      insertStatement ext stmt content = p ++ (g₁ ++ (stmt ++ (g₂ ++ r))) ∧
      (g₁ = [] ∨ g₁ = str "\n" ∨ g₁ = str "\n\n" ∨ g₁ = str "<?php\n\n") ∧
      (g₂ = [] ∨ g₂ = str "\n")) ∧
    ((ext ≠ str "*.php" ∧ ext ≠ str "*.html" ∧ ext ≠ str "*.htm" ∧
      ext ≠ str "*.xml" ∧ ext ≠ str "*.svg" ∧ ext ≠ str "*.py") →
      insertStatement ext stmt content = stmt ++ content) := by
  constructor
  · obtain ⟨p, r, g₁, g₂, h1, h2, h3, h4, _⟩ := insert_decomp ext stmt content
    exact ⟨p, r, g₁, g₂, h1, h2, h3, h4⟩
  · rintro ⟨h1, h2, h3, h4, h5, h6⟩
    unfold insertStatement
    rw [if_neg (by simp [h1]), if_neg (by simp [h2, h3, h4, h5]), if_neg (by simp [h6])]

/-- C2 witness: a concrete default-family file (.sql) with concrete
statement and content, instantiating the preservation theorem. -/
theorem C2_witness :
    insertStatement (str "*.sql") (str "-- S\n") (str "select 1;\n") =
      str "-- S\n" ++ str "select 1;\n" :=
  (C2_insertion_preserves_content (str "*.sql") (str "-- S\n") (str "select 1;\n")).2
    (by refine ⟨?_, ?_, ?_, ?_, ?_, ?_⟩ <;> decide)

/-- C5: markup insertion.  For the four markup extension keys, when the
content holds a DOCTYPE or xml declaration (in the sense of the source's
regex search) the statement is spliced immediately after the end of the
match — so the result keeps the nonempty region up to the declaration end
at file start and the statement is not at position zero — and when no
declaration is found the statement is prepended. -/
theorem C5_markup_insertion (ext stmt content : Str)
    (h : ext = str "*.html" ∨ ext = str "*.htm" ∨ ext = str "*.xml" ∨ ext = str "*.svg") :
    (∀ i e, findDeclEnd content = some (i, e) →
      insertStatement ext stmt content =
        content.take e ++ (str "\n\n" ++ (stmt ++ content.drop e)) ∧ content.take e ≠ []) ∧
    (findDeclEnd content = none → insertStatement ext stmt content = stmt ++ content) := by
  have hphp : (ext == str "*.php") = false := by
    rcases h with rfl | rfl | rfl | rfl <;> decide
  have hmk : (ext == str "*.html" || ext == str "*.htm" || ext == str "*.xml" ||
      ext == str "*.svg") = true := by
    rcases h with rfl | rfl | rfl | rfl <;> decide
  constructor
  · intro i e hfd
    unfold insertStatement
    rw [if_neg (by simp [hphp]), if_pos hmk]
    simp only [hfd]
    refine ⟨by trivial, ?_⟩
    obtain ⟨hpos, hle⟩ := findDeclEnd_bounds content i e hfd
    rw [Ne, List.take_eq_nil_iff]
    push_neg
    refine ⟨by omega, ?_⟩
    intro hc
    subst hc
    simp at hle
    omega
  · intro hfd
    unfold insertStatement
    rw [if_neg (by simp [hphp]), if_pos hmk]
    simp only [hfd]

/-- C5 witness: a concrete .html file with a DOCTYPE, and one without. -/
theorem C5_witness :
    insertStatement (str "*.html") (str "<!-- S -->\n") (str "<!DOCTYPE html>\n<p>x</p>") =
      str "<!DOCTYPE html>" ++ (str "\n\n" ++ (str "<!-- S -->\n" ++ str "\n<p>x</p>")) ∧
    insertStatement (str "*.html") (str "<!-- S -->\n") (str "<p>x</p>") =
      str "<!-- S -->\n" ++ str "<p>x</p>" := by
  constructor
  · have h := (C5_markup_insertion (str "*.html") (str "<!-- S -->\n")
      (str "<!DOCTYPE html>\n<p>x</p>") (Or.inl rfl)).1 0 15 (by decide)
    rw [h.1]
    decide
  · exact (C5_markup_insertion (str "*.html") (str "<!-- S -->\n")
      (str "<p>x</p>") (Or.inl rfl)).2 (by decide)

/-- C7: the header detector returns true exactly when one of the fixed
indicators — the uppercased filename or one of the fixed phrases — occurs
as a substring of the join of the first twenty lines of the content. -/
theorem C7_detector_iff (content fname : Str) :
    hasAboutStatement content fname = true ↔
      ∃ ind ∈ aboutIndicators fname, ∃ a b, firstLines 20 content = a ++ (ind ++ b) := by
  unfold hasAboutStatement
  rw [List.any_eq_true]
  constructor
  · rintro ⟨ind, hmem, hc⟩
    exact ⟨ind, hmem, (containsSub_iff _ _).mp hc⟩
  · rintro ⟨ind, hmem, hc⟩
    exact ⟨ind, hmem, (containsSub_iff _ _).mpr hc⟩

/-- C7 witness: the detector fires on a concrete content whose second line
carries the "Author:" phrase. -/
theorem C7_witness : hasAboutStatement (str "x\nAuthor: me\ny") (str "f.py") = true :=
  (C7_detector_iff (str "x\nAuthor: me\ny") (str "f.py")).mpr
    ⟨str "Author:", by decide, str "x\n", str " me\ny", by decide⟩

/-- C6: exclusion invariant.  For every filesystem enumeration, file
predicate and extension filters, a path one of whose segments lowercases to
an excluded token never enters the candidate list built by the walker. -/
theorem C6_excluded_never_collected (rglob : Str → List (List Str))
    (isF : List Str → Bool) (exts : List Str) (p : List Str)
    (h : ∃ part ∈ p, toLowerStr part ∈ EXCLUDED_EXTS) :
    p ∉ getFolder rglob isF exts := by
  have hex : isExcludedPath p = true := by
    obtain ⟨part, hmem, hin⟩ := h
    unfold isExcludedPath
    rw [Bool.or_eq_true]
    left
    apply List.any_eq_true.mpr
    refine ⟨part, hmem, ?_⟩
    apply List.any_eq_true.mpr
    exact ⟨toLowerStr part, hin, by simp⟩
  have hinner : ∀ (children : List (List Str)) (acc : List (List Str)), p ∉ acc →
      p ∉ children.foldl (fun acc2 child =>
        if isF child && !isExcludedPath child && !acc2.contains child
        then acc2 ++ [child] else acc2) acc := by
    intro children
    induction children with
    | nil => intro acc hacc; exact hacc
    | cons c cs ih =>
      intro acc hacc
      apply ih
      by_cases hcp : c = p
      · subst hcp
        simp [hex, hacc]
      · dsimp only
        split
        · intro hmem'
          rcases List.mem_append.mp hmem' with h' | h'
          · exact hacc h'
          · simp only [List.mem_singleton] at h'
            exact hcp h'.symm
        · exact hacc
  have houter : ∀ (l : List Str) (acc : List (List Str)), p ∉ acc →
      p ∉ l.foldl (fun acc ext =>
        (rglob (normalizePattern ext)).foldl (fun acc2 child =>
          if isF child && !isExcludedPath child && !acc2.contains child
          then acc2 ++ [child] else acc2) acc) acc := by
    intro l
    induction l with
    | nil => intro acc hacc; exact hacc
    | cons e es ih =>
      intro acc hacc
      exact ih _ (hinner _ _ hacc)
  exact houter exts [] (by simp)

/-- C6 witness: a node_modules path offered by the enumeration is not
collected. -/
theorem C6_witness :
    (∃ part ∈ [str "node_modules", str "a.py"], toLowerStr part ∈ EXCLUDED_EXTS) ∧
    [str "node_modules", str "a.py"] ∉
      getFolder (fun _ => [[str "node_modules", str "a.py"]]) (fun _ => true) [str "*"] :=
  ⟨by decide, C6_excluded_never_collected _ _ _ _ (by decide)⟩

/-- C8: backup precondition and content.  Whenever the pipeline ends in the
processed state, the completed writes are exactly an optional backup —
present if and only if the file size exceeds 10000 bytes, placed at the
original name with ".bak" appended and holding the original content
unmodified — followed by the main write to the original name. -/
theorem C8_backup (f : FileState) (author ts : Str) (force : Bool) (c : Str)
    (hc : f.content? = some c)
    (hp : (editFile f author ts force).status = "processed") :
    ∃ nc, (editFile f author ts force).writes =
      (if 10000 < f.size then [(f.fname ++ str ".bak", c)] else []) ++ [(f.fname, nc)] := by
  obtain ⟨fn, fe, fi, co, sz, bk, mo⟩ := f
  simp only at hc
  subst hc
  cases fe
  · simp [editFile] at hp
  cases fi
  · simp [editFile] at hp
  cases hlk : lookupExt (extKey fn) with
  | none => simp [editFile, hlk] at hp
  | some style =>
    by_cases hab : (hasAboutStatement c fn && !force) = true
    · simp [editFile, hlk, hab] at hp
    · simp only [Bool.not_eq_true] at hab
      by_cases hsz : 10000 < sz
      · cases bk
        · simp [editFile, hlk, hab, hsz] at hp
        · cases mo
          · simp [editFile, hlk, hab, hsz] at hp
          · refine ⟨insertStatement (extKey fn)
              (generateAboutStatement fn author ts style) c, ?_⟩
            simp [editFile, hlk, hab, hsz, withSuffix_bak]
      · cases mo
        · simp [editFile, hlk, hab, hsz] at hp
        · refine ⟨insertStatement (extKey fn)
            (generateAboutStatement fn author ts style) c, ?_⟩
          simp [editFile, hlk, hab, hsz]

/-- A concrete large .sh file (12000 bytes reported by stat) used to
instantiate the backup theorem. -/
def bigShFile : FileState :=
  ⟨str "run.sh", true, true, some (str "echo hi\n"), 12000, true, true⟩

/-- C8 witness: on the concrete large file the writes are the backup at
"run.sh.bak" carrying the original content, then the main write. -/
theorem C8_witness :
    bigShFile.content? = some (str "echo hi\n") ∧
    (editFile bigShFile (str "Ada") (str "T") false).status = "processed" ∧
    ∃ nc, (editFile bigShFile (str "Ada") (str "T") false).writes =
      (if 10000 < bigShFile.size then [(bigShFile.fname ++ str ".bak", str "echo hi\n")]
       else []) ++ [(bigShFile.fname, nc)] :=
  ⟨rfl, by decide, C8_backup bigShFile (str "Ada") (str "T") false (str "echo hi\n") rfl (by decide)⟩

/-- C9 (amended): a file whose name has an empty pathlib suffix (every
extensionless dotfile such as ".gitignore") always ends in the error state
with nothing written, because its registry key is "*", which is absent from
the registry — even though the registry does contain the keys
"*.gitignore" and "*.dockerignore"; those entries are never selected for
the dotfiles themselves and are reached only through names with a
nonempty suffix such as "a.gitignore". -/
theorem C9_dotfile_unsupported (f : FileState) (author ts : Str) (force : Bool)
    (h : pySuffix f.fname = []) :
    (editFile f author ts force).status = "error" ∧
    (editFile f author ts force).writes = [] ∧
    str "*.gitignore" ∈ INCLUDED_EXTS.map (fun e => e.1) ∧
    str "*.dockerignore" ∈ INCLUDED_EXTS.map (fun e => e.1) := by
  obtain ⟨fn, fe, fi, co, sz, bk, mo⟩ := f
  simp only at h
  have hlk : lookupExt (extKey fn) = none := by
    unfold extKey
    rw [h]
    decide
  refine ⟨?_, ?_, by decide, by decide⟩
  all_goals cases fe <;> cases fi <;> simp [editFile, hlk]

/-- The dotfile ".gitignore" as seen by the pipeline. -/
def gitignoreFile : FileState :=
  ⟨str ".gitignore", true, true, some (str "node_modules\n"), 13, true, true⟩

/-- C9 witness: the concrete dotfile ".gitignore" errors with nothing
written, while both dotfile keys sit in the registry. -/
theorem C9_witness :
    (editFile gitignoreFile (str "Ada") (str "T") false).status = "error" ∧
    (editFile gitignoreFile (str "Ada") (str "T") false).writes = [] ∧
    str "*.gitignore" ∈ INCLUDED_EXTS.map (fun e => e.1) ∧
    str "*.dockerignore" ∈ INCLUDED_EXTS.map (fun e => e.1) :=
  C9_dotfile_unsupported gitignoreFile (str "Ada") (str "T") false (by decide)

/-- C9 counterexample: the claim calls the entries "*.gitignore" and
"*.dockerignore" unreachable, but a file named "a.gitignore" computes
exactly that key, finds it in the registry, and is processed with its
hash comment style. -/
theorem C9_cex :
    extKey (str "a.gitignore") = str "*.gitignore" ∧
    lookupExt (str "*.gitignore") = some (str "# ", str "") ∧
    (editFile ⟨str "a.gitignore", true, true, some (str "x\n"), 3, true, true⟩
      (str "Ada") (str "T") false).status = "processed" := by decide

/-- C10: totality and atomicity of the per-file pipeline.  The status is
always one of the three strings; a skipped run writes nothing; and an
error run either wrote nothing or (only when the main write failed) wrote
only the backup, never the target file itself. -/
theorem C10_totality (f : FileState) (author ts : Str) (force : Bool) :
    ((editFile f author ts force).status = "processed" ∨
     (editFile f author ts force).status = "skipped" ∨
     (editFile f author ts force).status = "error") ∧
    ((editFile f author ts force).status = "skipped" →
      (editFile f author ts force).writes = []) ∧
    ((editFile f author ts force).status = "error" →
      (editFile f author ts force).writes = [] ∨
      (f.mainOk = false ∧ ∀ w ∈ (editFile f author ts force).writes, w.1 ≠ f.fname)) := by
  obtain ⟨fn, fe, fi, co, sz, bk, mo⟩ := f
  cases fe
  · simp [editFile]
  cases fi
  · simp [editFile]
  cases hlk : lookupExt (extKey fn) with
  | none => simp [editFile, hlk]
  | some style =>
    cases co with
    | none => simp [editFile, hlk]
    | some c =>
      by_cases hab : (hasAboutStatement c fn && !force) = true
      · simp [editFile, hlk, hab]
      · simp only [Bool.not_eq_true] at hab
        by_cases hsz : 10000 < sz
        · cases bk
          · simp [editFile, hlk, hab, hsz]
          · cases mo
            · simp [editFile, hlk, hab, hsz, withSuffix_bak]
              decide
            · simp [editFile, hlk, hab, hsz]
        · cases mo
          · simp [editFile, hlk, hab, hsz]
          · simp [editFile, hlk, hab, hsz]

/-- A file with an unsupported extension, used to instantiate totality. -/
def unsupportedFile : FileState :=
  ⟨str "notes.unknownext", true, true, some (str "y\n"), 3, true, true⟩

/-- C10 witness: the concrete unsupported file errors and the totality
theorem yields that nothing was written. -/
theorem C10_witness :
    (editFile unsupportedFile (str "Ada") (str "T") false).status = "error" ∧
    ((editFile unsupportedFile (str "Ada") (str "T") false).writes = [] ∨
      (unsupportedFile.mainOk = false ∧
        ∀ w ∈ (editFile unsupportedFile (str "Ada") (str "T") false).writes,
          w.1 ≠ unsupportedFile.fname)) :=
  ⟨by decide, (C10_totality unsupportedFile (str "Ada") (str "T") false).2.2 (by decide)⟩

/-- A candidate file that is skipped (its first line already carries the
"Author:" phrase). -/
def skipFile : FileState :=
  ⟨str "a.py", true, true, some (str "# Author: X\n"), 12, true, true⟩

/-- A batch world with one candidate, which the pipeline skips. -/
def c3World : MainWorld :=
  ⟨str "Ada", PathKind.dir, [skipFile], skipFile, str "T", false⟩

/-- C3 counterexample: a batch run in which zero files end in the processed
state (the sole candidate is skipped) still exits 0, against the claim
that such a run does not exit 0. -/
theorem C3_cex :
    (permEditCounts [skipFile] (str "Ada") (str "T") false).1 = 0 ∧
    mainExit c3World = 0 := by decide

/-- C3 (amended): `main` returns 1 for an empty trimmed author, a missing
path, a path that is neither file nor directory, or an empty candidate
list; in directory mode it returns 0 whenever the candidate list is
nonempty, regardless of how many files end processed; in single-file mode
it returns 0 exactly when the file is processed or skipped; and the
top-level handler maps an external cancellation to exit code 130. -/
theorem C3_exit_amended (w : MainWorld) :
    (pyStrip w.author = [] → mainExit w = 1) ∧
    (pyStrip w.author ≠ [] → w.kind = PathKind.missing → mainExit w = 1) ∧
    (pyStrip w.author ≠ [] → w.kind = PathKind.other → mainExit w = 1) ∧
    (pyStrip w.author ≠ [] → w.kind = PathKind.dir → w.candidates = [] → mainExit w = 1) ∧
    (pyStrip w.author ≠ [] → w.kind = PathKind.dir → w.candidates ≠ [] → mainExit w = 0) ∧
    (pyStrip w.author ≠ [] → w.kind = PathKind.file →
      (mainExit w = 0 ↔
        ((editFile w.single w.author w.ts w.force).status = "processed" ∨
         (editFile w.single w.author w.ts w.force).status = "skipped"))) ∧
    processExit RunOutcome.interrupted = 130 := by
  obtain ⟨author, kind, cands, single, ts, force⟩ := w
  refine ⟨?_, ?_, ?_, ?_, ?_, ?_, rfl⟩
  · intro h; simp [mainExit, h]
  · intro h hk; subst hk; simp [mainExit, h]
  · intro h hk; subst hk; simp [mainExit, h]
  · intro h hk hc; subst hk
    dsimp only at h hc
    simp [mainExit, h, hc]
  · intro h hk hc; subst hk
    dsimp only at h hc
    simp [mainExit, h, hc]
  · intro h hk; subst hk
    dsimp only at h
    simp only [mainExit, if_neg h]
    constructor
    · intro h0
      by_cases h1 : (editFile single author ts force).status = "processed"
      · exact Or.inl h1
      · by_cases h2 : (editFile single author ts force).status = "skipped"
        · exact Or.inr h2
        · simp [h1, h2] at h0
    · rintro (h1 | h1) <;> simp [h1]

/-- C3 witness: an all-blank author exits 1, and the concrete skipped-only
batch exits 0, both via the amended exit theorem. -/
theorem C3_witness :
    pyStrip (str " ") = [] ∧
    mainExit ⟨str " ", PathKind.dir, [], skipFile, str "T", false⟩ = 1 ∧
    mainExit c3World = 0 :=
  ⟨by decide,
   (C3_exit_amended ⟨str " ", PathKind.dir, [], skipFile, str "T", false⟩).1 (by decide),
   (C3_exit_amended c3World).2.2.2.2.1 (by decide) rfl (by decide)⟩

/-- The scenario file of the specification: app.py with shebang and
encoding declaration. -/
def appPyFile : FileState :=
  ⟨str "app.py", true, true,
   some (str "#!/usr/bin/env python\n# -*- coding: utf-8 -*-\nprint(\"hi\")\n"),
   44, true, true⟩

/-- C4: the Python preamble scenario.  For any timestamp, processing
app.py with author "Ada" yields exactly the shebang line, the encoding
line, the triple-quote block with the uppercased filename and
"Author: Ada", and then the original body. -/
theorem C4_python_preamble (ts : Str) :
    editFile appPyFile (str "Ada") ts false =
      ⟨"processed", [(str "app.py",
        str "#!/usr/bin/env python\n# -*- coding: utf-8 -*-\n\"\"\"\nAPP.PY - Python Script\nAuthor: Ada\nCreated: " ++
          (ts ++ str "\n\"\"\"\n\n\nprint(\"hi\")\n"))]⟩ := by
  have h : editFile appPyFile (str "Ada") ts false =
      ⟨"processed", [(str "app.py",
        str "#!/usr/bin/env python\n# -*- coding: utf-8 -*-\n\"\"\"\nAPP.PY - Python Script\nAuthor: Ada\nCreated: " ++
          ((ts ++ str "\n\"\"\"\n\n") ++ str "\nprint(\"hi\")\n"))]⟩ := rfl
  rw [h, List.append_assoc]
  rfl

/-- C1 (amended): idempotence without force.  If a run of the per-file
pipeline (filename without newline characters) ends processed and wrote
`nc` to the file, then — except when the file is a markup file whose
declaration match ends beyond the 16th line, where the inserted statement
can fall outside the detector's 20-line window — a second run on `nc` with
the same author and force off is skipped and writes nothing. -/
theorem C1_idempotent_amended (f : FileState) (author ts : Str) (c nc : Str)
    (hc : f.content? = some c)
    (hnf : ('\n' : Char) ∉ upperStr f.fname)
    (hdecl : ∀ i e, findDeclEnd c = some (i, e) →
      (extKey f.fname = str "*.html" ∨ extKey f.fname = str "*.htm" ∨
       extKey f.fname = str "*.xml" ∨ extKey f.fname = str "*.svg") →
      (c.take e).count '\n' ≤ 15)
    (hp : (editFile f author ts false).status = "processed")
    (hw : (editFile f author ts false).writes.getLast? = some (f.fname, nc)) :
    editFile { f with content? := some nc } author ts false = ⟨"skipped", []⟩ := by
  obtain ⟨fn, fe, fi, co, sz, bk, mo⟩ := f
  dsimp only at hc hnf hdecl hw
  subst hc
  cases fe
  · simp [editFile] at hp
  cases fi
  · simp [editFile] at hp
  cases hlk : lookupExt (extKey fn) with
  | none => simp [editFile, hlk] at hp
  | some style =>
    by_cases hab : hasAboutStatement c fn = true
    · simp [editFile, hlk, hab] at hp
    · replace hab : hasAboutStatement c fn = false := by simpa using hab
      have hmemreg : ∃ x ∈ INCLUDED_EXTS, x.2 = style := by
        unfold lookupExt at hlk
        cases hf0 : INCLUDED_EXTS.find? (fun e => e.1 == extKey fn) with
        | none => rw [hf0] at hlk; simp at hlk
        | some x =>
          rw [hf0] at hlk
          simp only [Option.map_some'] at hlk
          injection hlk with hlk'
          exact ⟨x, List.mem_of_find?_eq_some hf0, hlk'⟩
      obtain ⟨x, hxmem, hxeq⟩ := hmemreg
      have hno : ('\n' : Char) ∉ style.1 := by
        rw [← hxeq]
        exact (registry_no_newline x hxmem).1
      have hstmt := generate_author_decomp fn author ts style hno hnf
      have hhas : hasAboutStatement (insertStatement (extKey fn)
          (generateAboutStatement fn author ts style) c) fn = true :=
        hasAbout_insert _ _ _ _ hstmt (fun i e hfd hext => hdecl i e hfd hext)
      by_cases hsz : 10000 < sz
      · cases bk
        · simp [editFile, hlk, hab, hsz] at hp
        · cases mo
          · simp [editFile, hlk, hab, hsz] at hp
          · have hwrites : editFile ⟨fn, true, true, some c, sz, true, true⟩ author ts false =
                ⟨"processed", [(withSuffix fn (pySuffix fn ++ str ".bak"), c),
                  (fn, insertStatement (extKey fn)
                    (generateAboutStatement fn author ts style) c)]⟩ := by
              simp [editFile, hlk, hab, hsz]
            rw [hwrites] at hw
            have hgl : ([(withSuffix fn (pySuffix fn ++ str ".bak"), c),
                (fn, insertStatement (extKey fn)
                  (generateAboutStatement fn author ts style) c)] :
                List (Str × Str)).getLast? =
                some (fn, insertStatement (extKey fn)
                  (generateAboutStatement fn author ts style) c) := rfl
            dsimp only at hw
            rw [hgl] at hw
            injection hw with hw'
            have hnc : nc = insertStatement (extKey fn)
                (generateAboutStatement fn author ts style) c := by
              have hsnd := congrArg Prod.snd hw'
              simpa using hsnd.symm
            subst hnc
            simp [editFile, hlk, hhas]
      · cases mo
        · simp [editFile, hlk, hab, hsz] at hp
        · have hwrites : editFile ⟨fn, true, true, some c, sz, bk, true⟩ author ts false =
              ⟨"processed", [(fn, insertStatement (extKey fn)
                (generateAboutStatement fn author ts style) c)]⟩ := by
            simp [editFile, hlk, hab, hsz]
          rw [hwrites] at hw
          have hgl : ([(fn, insertStatement (extKey fn)
              (generateAboutStatement fn author ts style) c)] :
              List (Str × Str)).getLast? =
              some (fn, insertStatement (extKey fn)
                (generateAboutStatement fn author ts style) c) := rfl
          dsimp only at hw
          rw [hgl] at hw
          injection hw with hw'
          have hnc : nc = insertStatement (extKey fn)
              (generateAboutStatement fn author ts style) c := by
            have hsnd := congrArg Prod.snd hw'
            simpa using hsnd.symm
          subst hnc
          simp [editFile, hlk, hhas]

/-- An .html file whose DOCTYPE declaration sits on line 21, past the
detector's 20-line window. -/
def c1File : FileState :=
  ⟨str "a.html", true, true,
   some (str "x\nx\nx\nx\nx\nx\nx\nx\nx\nx\nx\nx\nx\nx\nx\nx\nx\nx\nx\nx\n<!DOCTYPE html>\nbody\n"),
   100, true, true⟩

/-- The outcome of the first run on the deep-declaration markup file. -/
def c1Out1 : EditOutcome := editFile c1File (str "Ada") (str "T") false

/-- The content written by the first run. -/
def c1New : Str := (c1Out1.writes.map Prod.snd).getLastD []

/-- The outcome of the second run, on the output of the first. -/
def c1Out2 : EditOutcome :=
  editFile { c1File with content? := some c1New } (str "Ada") (str "T") false

/-- C1 counterexample: on this supported file the second run is not
skipped — it processes again and writes content differing from its input,
so the claimed unconditional idempotence fails. -/
theorem C1_cex :
    c1Out1.status = "processed" ∧ c1Out2.status = "processed" ∧
    c1Out2.status ≠ "skipped" ∧
    (c1Out2.writes.map Prod.snd).getLastD [] ≠ c1New := by decide

/-- The plain Python file used to instantiate the amended idempotence
theorem. -/
def c1WitnessFile : FileState :=
  ⟨str "m.py", true, true, some (str "print(1)\n"), 10, true, true⟩

/-- The content the pipeline writes for the witness file. -/
def c1WitnessNew : Str :=
  str "\"\"\"\nM.PY - Python Script\nAuthor: Ada\nCreated: T\n\"\"\"\n\n\nprint(1)\n"

/-- C1 witness: on a concrete .py file the amended theorem applies and the
second run is skipped with nothing written. -/
theorem C1_witness :
    editFile { c1WitnessFile with content? := some c1WitnessNew }
      (str "Ada") (str "T") false = ⟨"skipped", []⟩ :=
  C1_idempotent_amended c1WitnessFile (str "Ada") (str "T") (str "print(1)\n")
    c1WitnessNew
    rfl (by decide)
    (fun i e hfd _ => by
      rw [show findDeclEnd (str "print(1)\n") = none from by decide] at hfd
      cases hfd)
    (by decide) (by decide)

/-- C4 witness: the scenario theorem instantiated at a concrete timestamp. -/
theorem C4_witness :
    editFile appPyFile (str "Ada") (str "T") false =
      ⟨"processed", [(str "app.py",
        str "#!/usr/bin/env python\n# -*- coding: utf-8 -*-\n\"\"\"\nAPP.PY - Python Script\nAuthor: Ada\nCreated: " ++
          (str "T" ++ str "\n\"\"\"\n\n\nprint(\"hi\")\n"))]⟩ :=
  C4_python_preamble (str "T")
